import Mathlib

/-!
Verification development for the leader-replication key-value store
(`leader-replication-go`): a shallow embedding of the store, the HTTP
handlers and the broadcaster, with proofs of the behavioural properties
stated in the design document.

Conventions of the embedding:
* Go `time.Time` values are modelled as `Nat` instants; `a.Before b` is
  `a < b`, `a.After b` is `b < a`, `a.Equal b` is `a = b`.
* The Go map `map[string]Entry` is modelled as the function
  `String → Option Entry`; a missing key is `none`.
* The Go map `map[string]bool` used for `BlockPeers` is modelled as its
  membership function `String → Bool` (lookup of an absent key yields
  `false`, exactly as in Go).
* Fallible request decoding is modelled by an `Option` body: `none` is a
  body that fails to decode.
-/

namespace LeaderRepl

/-- Type `Entry` from internal/store/store.go: a key-value pair with the
write timestamp used for Last-Write-Wins conflict resolution. -/
structure Entry where
  key : String
  value : String
  ts : Nat
deriving DecidableEq, Repr

/-- The data map of the `KV` store from internal/store/store.go
(`map[string]Entry`), modelled as a lookup function. -/
abbrev KV : Type := String → Option Entry

/-- Constructor `New` from internal/store/store.go: a store with an empty data map. -/
def KV.New : KV := fun _ => none

/-- Function `Upsert` from internal/store/store.go lines 36-50: look up the
current entry for `e.Key`; write `e` if the key is absent (`!ok`) or if
`!e.TS.Before(cur.TS)`, i.e. `¬ e.ts < cur.ts`; otherwise leave the map
untouched. -/
def KV.Upsert (kv : KV) (e : Entry) : KV :=
  match kv e.key with
  | none => fun k => if k = e.key then some e else kv k
  | some cur =>
    if e.ts < cur.ts then kv
    else fun k => if k = e.key then some e else kv k

/-- Function `Get` from internal/store/store.go: lookup in the data map. -/
def KV.Get (kv : KV) (key : String) : Option Entry := kv key

/-- Claim C1: `Upsert` inserts the record when the key is absent, overwrites
when the incoming timestamp is ≥ the stored one (ties accept the
incoming record), and is a complete no-op — the whole map is unchanged —
when the incoming timestamp is strictly smaller.  `Upsert` is a total
function, so the operation never fails. -/
theorem upsert_lww_cases (s : KV) (r : Entry) :
    (s r.key = none → KV.Upsert s r r.key = some r) ∧
    (∀ cur, s r.key = some cur → cur.ts ≤ r.ts → KV.Upsert s r r.key = some r) ∧
    (∀ cur, s r.key = some cur → r.ts < cur.ts → KV.Upsert s r = s) := by
  refine ⟨fun h => ?_, fun cur h hle => ?_, fun cur h hlt => ?_⟩
  · simp [KV.Upsert, h]
  · simp [KV.Upsert, h, Nat.not_lt.mpr hle]
  · simp [KV.Upsert, h, hlt]

/-- Witness for C1 at concrete inputs: inserting into the empty store, a
tie overwriting, and a stale write which is a no-op. -/
theorem upsert_lww_cases_witness :
    (KV.Upsert KV.New ⟨"k", "v", 5⟩ "k" = some ⟨"k", "v", 5⟩) ∧
    (KV.Upsert (KV.Upsert KV.New ⟨"k", "v", 5⟩) ⟨"k", "w", 5⟩ "k" = some ⟨"k", "w", 5⟩) ∧
    (KV.Upsert (KV.Upsert KV.New ⟨"k", "v", 5⟩) ⟨"k", "old", 3⟩ = KV.Upsert KV.New ⟨"k", "v", 5⟩) := by
  refine ⟨(upsert_lww_cases KV.New ⟨"k", "v", 5⟩).1 (by decide), ?_, ?_⟩
  · exact (upsert_lww_cases (KV.Upsert KV.New ⟨"k", "v", 5⟩) ⟨"k", "w", 5⟩).2.1
      ⟨"k", "v", 5⟩ (by decide) (by decide)
  · exact (upsert_lww_cases (KV.Upsert KV.New ⟨"k", "v", 5⟩) ⟨"k", "old", 3⟩).2.2
      ⟨"k", "v", 5⟩ (by decide) (by decide)

/-- Claim C7: `Upsert` is idempotent — applying the same record twice leaves
the store exactly as after the first application. -/
theorem upsert_idempotent (s : KV) (r : Entry) :
    KV.Upsert (KV.Upsert s r) r = KV.Upsert s r := by
  cases h : s r.key with
  | none =>
    funext k
    simp only [KV.Upsert, h]
    by_cases hk : k = r.key <;> simp [hk]
  | some cur =>
    by_cases hlt : r.ts < cur.ts
    · simp only [KV.Upsert, h, if_pos hlt]
    · funext k
      simp only [KV.Upsert, h, if_neg hlt]
      by_cases hk : k = r.key <;> simp [hk, h, hlt]

/-- A sequence of `Upsert` (merge) calls applied in list order to a
store. -/
def ApplyAll (s : KV) (l : List Entry) : KV := l.foldl KV.Upsert s

/-- Spec-side characterisation of the LWW winner (§8 "LWW convergence"):
starting from a current record, each subsequent record replaces the
accumulator exactly when its timestamp is ≥ the accumulator's, so the
result is the most-recently-applied record among those carrying the
maximal timestamp. -/
def specWinner (e : Entry) (l : List Entry) : Entry :=
  l.foldl (fun acc r => if acc.ts ≤ r.ts then r else acc) e

theorem applyAll_lookup (l : List Entry) : ∀ (s : KV) (k : String) (w : Entry),
    s k = some w → (∀ r ∈ l, r.key = k) →
    ApplyAll s l k = some (specWinner w l) := by
  induction l with
  | nil =>
    intro s k w hw _
    simpa [ApplyAll, specWinner] using hw
  | cons r l ih =>
    intro s k w hw hk
    have hrk : r.key = k := hk r (List.mem_cons_self r l)
    have hrest : ∀ x ∈ l, x.key = k := fun x hx => hk x (List.mem_cons_of_mem r hx)
    have hsrk : s r.key = some w := by rw [hrk]; exact hw
    by_cases hlt : r.ts < w.ts
    · have hup : KV.Upsert s r = s := by
        simp [KV.Upsert, hsrk, hlt]
      have hspec : specWinner w (r :: l) = specWinner w l := by
        simp [specWinner, Nat.not_le.mpr hlt]
      have : ApplyAll s (r :: l) k = ApplyAll s l k := by
        show ApplyAll (KV.Upsert s r) l k = ApplyAll s l k
        rw [hup]
      rw [this, hspec]
      exact ih s k w hw hrest
    · have hup : (KV.Upsert s r) k = some r := by
        simp [KV.Upsert, hsrk, hlt, hrk.symm]
      have hspec : specWinner w (r :: l) = specWinner r l := by
        simp [specWinner, Nat.le_of_not_lt hlt]
      rw [hspec]
      exact ih (KV.Upsert s r) k r hup hrest

theorem specWinner_ts (l : List Entry) : ∀ e : Entry,
    (specWinner e l).ts = l.foldl (fun m r => Nat.max m r.ts) e.ts := by
  induction l with
  | nil => intro e; rfl
  | cons r l ih =>
    intro e
    have h1 : (if e.ts ≤ r.ts then r else e).ts = Nat.max e.ts r.ts := by
      by_cases h : e.ts ≤ r.ts <;> simp [h, Nat.max_def]
    show (specWinner (if e.ts ≤ r.ts then r else e) l).ts
        = l.foldl (fun m r => Nat.max m r.ts) (Nat.max e.ts r.ts)
    rw [ih, h1]

theorem specWinner_mem (l : List Entry) : ∀ e : Entry,
    specWinner e l ∈ e :: l := by
  induction l with
  | nil => intro e; exact List.mem_singleton.mpr rfl
  | cons r l ih =>
    intro e
    have : specWinner e (r :: l) = specWinner (if e.ts ≤ r.ts then r else e) l := rfl
    rw [this]
    rcases List.mem_cons.mp (ih (if e.ts ≤ r.ts then r else e)) with h | h
    · rw [h]
      by_cases hc : e.ts ≤ r.ts <;> simp [hc]
    · exact List.mem_cons_of_mem e (List.mem_cons_of_mem r h)

theorem specWinner_last_max (l : List Entry) : ∀ e : Entry, ∃ l₁ l₂,
    e :: l = l₁ ++ specWinner e l :: l₂ ∧ ∀ x ∈ l₂, x.ts < (specWinner e l).ts := by
  induction l with
  | nil => intro e; exact ⟨[], [], rfl, by simp⟩
  | cons r l ih =>
    intro e
    by_cases hc : e.ts ≤ r.ts
    · obtain ⟨l₁, l₂, hdec, hlt⟩ := ih r
      have hw : specWinner e (r :: l) = specWinner r l := by
        show specWinner (if e.ts ≤ r.ts then r else e) l = specWinner r l
        rw [if_pos hc]
      refine ⟨e :: l₁, l₂, ?_, ?_⟩
      · rw [hw]
        show e :: (r :: l) = e :: (l₁ ++ specWinner r l :: l₂)
        rw [← hdec]
      · rw [hw]; exact hlt
    · obtain ⟨l₁, l₂, hdec, hlt⟩ := ih e
      have hw : specWinner e (r :: l) = specWinner e l := by
        show specWinner (if e.ts ≤ r.ts then r else e) l = specWinner e l
        rw [if_neg hc]
      cases l₁ with
      | nil =>
        have he : specWinner e l = e := (List.cons.injEq _ _ _ _ ▸ hdec).1.symm
        have hl : l = l₂ := by
          have := (List.cons.injEq _ _ _ _ ▸ hdec).2
          simpa using this
        refine ⟨[], r :: l, ?_, ?_⟩
        · rw [hw, he]; rfl
        · intro x hx
          rw [hw, he]
          rcases List.mem_cons.mp hx with h | h
          · rw [h]; exact Nat.lt_of_not_le hc
          · have := hlt x (hl ▸ h)
            rwa [he] at this
      | cons a l₁' =>
        have ha : a = e := ((List.cons.injEq _ _ _ _ ▸ hdec).1).symm
        have hl : l = l₁' ++ specWinner e l :: l₂ := by
          have := (List.cons.injEq _ _ _ _ ▸ hdec).2
          simpa using this
        refine ⟨e :: r :: l₁', l₂, ?_, ?_⟩
        · rw [hw]
          show e :: r :: l = e :: r :: (l₁' ++ specWinner e l :: l₂)
          rw [← hl]
        · rw [hw]; exact hlt

/-- Claim C2: applying a non-empty sequence of merges for one key `k` (in any
order, i.e. for any list) to a store with no entry at `k` leaves at `k`
the record produced by the spec-side LWW fold; its timestamp is the
maximum of all the timestamps, it is one of the merged records, and every
record applied after it has a strictly smaller timestamp — so among
equal maximal timestamps the most recently applied record wins. -/
theorem lww_convergence (s : KV) (k : String) (e : Entry) (l : List Entry)
    (h0 : s k = none) (hkeys : ∀ r ∈ e :: l, r.key = k) :
    ApplyAll s (e :: l) k = some (specWinner e l) ∧
    (specWinner e l).ts = l.foldl (fun m r => Nat.max m r.ts) e.ts ∧
    specWinner e l ∈ e :: l ∧
    ∃ l₁ l₂, e :: l = l₁ ++ specWinner e l :: l₂ ∧
      ∀ x ∈ l₂, x.ts < (specWinner e l).ts := by
  have hek : e.key = k := hkeys e (List.mem_cons_self e l)
  have hrest : ∀ x ∈ l, x.key = k := fun x hx => hkeys x (List.mem_cons_of_mem e hx)
  have hsek : s e.key = none := by rw [hek]; exact h0
  have h1 : (KV.Upsert s e) k = some e := by
    simp [KV.Upsert, hsek, hek.symm]
  refine ⟨?_, specWinner_ts l e, specWinner_mem l e, specWinner_last_max l e⟩
  show ApplyAll (KV.Upsert s e) l k = some (specWinner e l)
  exact applyAll_lookup l (KV.Upsert s e) k e h1 hrest

/-- Witness for C2: three writes to key `"k"` with timestamps 1, 3, 3;
the final record is the most recent of the two timestamp-3 writes. -/
theorem lww_convergence_witness :
    ApplyAll KV.New [⟨"k", "a", 1⟩, ⟨"k", "b", 3⟩, ⟨"k", "c", 3⟩] "k"
      = some (specWinner ⟨"k", "a", 1⟩ [⟨"k", "b", 3⟩, ⟨"k", "c", 3⟩]) ∧
    specWinner ⟨"k", "a", 1⟩ [⟨"k", "b", 3⟩, ⟨"k", "c", 3⟩] = ⟨"k", "c", 3⟩ := by
  refine ⟨(lww_convergence KV.New "k" ⟨"k", "a", 1⟩ [⟨"k", "b", 3⟩, ⟨"k", "c", 3⟩]
    (by decide) (by decide)).1, by decide⟩

/-- Type `Role` from internal/cluster/node.go. -/
inductive Role
  | leader
  | follower
deriving DecidableEq, Repr

/-- Type `Mode` from internal/cluster/node.go. -/
inductive Mode
  | sync
  | async
deriving DecidableEq, Repr

/-- Structure `NodeConfig` from internal/cluster/node.go (the fields the handlers
read; `BlockPeers : map[string]bool` is modelled by its membership
function). -/
structure NodeConfig where
  id : String
  role : Role
  mode : Mode
  peers : List String
  blockPeers : String → Bool

/-- Structure `ReplicateRequest` from internal/repl/repl.go. -/
structure ReplicateRequest where
  key : String
  value : String
  ts : Nat
  reqID : String
deriving DecidableEq, Repr

/-- The observable outcome of one per-peer goroutine of
`broadcastReplication` (internal/api/http.go lines 288-308): the peer was
skipped because it was blocked, or `repl.PostReplicate` was invoked and
returned nil (`delivered`) or an error (`failed`). -/
inductive Outcome
  | skipped
  | delivered
  | failed
deriving DecidableEq, Repr

/-- The body of one per-peer goroutine of `broadcastReplication`: check
`BlockPeers[url]`; if blocked, skip; otherwise call
`repl.PostReplicate`, whose success or failure is given by the
environment oracle `deliver`. -/
def attemptPeer (blocked : String → Bool) (deliver : String → ReplicateRequest → Bool)
    (req : ReplicateRequest) (url : String) : Outcome :=
  if blocked url then .skipped
  else if deliver url req then .delivered
  else .failed

/-- Function `broadcastReplication` from internal/api/http.go lines 276-317,
outcome view: one outcome per configured peer, in peer-list order.  In
sync mode `wg.Wait()` makes the whole list observed before the function
returns; in async mode the caller does not wait for it. -/
def broadcastReplication (peers : List String) (blocked : String → Bool)
    (deliver : String → ReplicateRequest → Bool) (req : ReplicateRequest) :
    List (String × Outcome) :=
  peers.map (fun url => (url, attemptPeer blocked deliver req url))

/-- Function `broadcastReplication`, transport-invocation view: the trace of
`repl.PostReplicate` calls the loop makes — for each peer in order, no
call when `BlockPeers[url]` is set, otherwise exactly one call carrying
the replication request. -/
def deliverCalls (peers : List String) (blocked : String → Bool)
    (req : ReplicateRequest) : List (String × ReplicateRequest) :=
  peers.filterMap (fun url => if blocked url then none else some (url, req))

/-- Structure `PutRequest` from internal/api/http.go. -/
structure PutRequest where
  key : String
  value : String
deriving DecidableEq, Repr

/-- The response `handlePut` writes: one of its error responses, or the
`PutResponse{Status: "ok", Mode, ReqID}` success body. -/
inductive PutReply
  | methodNotAllowed
  | notLeader
  | invalidBody
  | emptyKey
  | ok (mode : Mode) (reqID : String)
deriving DecidableEq, Repr

/-- Everything observable about one `handlePut` call: the response, the
resulting store, the delivery outcomes observed before the handler
returned (sync mode waits on the WaitGroup), and the outcomes of
deliveries still running in the background when it returned (async
mode's `go broadcastReplication`). -/
structure PutResult where
  reply : PutReply
  store : KV
  observed : List (String × Outcome)
  launched : List (String × Outcome)

/-- Function `handlePut` from internal/api/http.go lines 86-147: method check,
leader check, body decode, empty-key check, local `Upsert` with
`ts = now`, then broadcast — waited on in sync mode, fire-and-forget in
async mode — and in both modes an "ok" response. -/
def handlePut (cfg : NodeConfig) (deliver : String → ReplicateRequest → Bool)
    (s : KV) (methodPost : Bool) (body : Option PutRequest)
    (now : Nat) (reqID : String) : PutResult :=
  if !methodPost then ⟨.methodNotAllowed, s, [], []⟩
  else if cfg.role ≠ .leader then ⟨.notLeader, s, [], []⟩
  else
    match body with
    | none => ⟨.invalidBody, s, [], []⟩
    | some req =>
      if req.key = "" then ⟨.emptyKey, s, [], []⟩
      else
        let entry : Entry := ⟨req.key, req.value, now⟩
        let s' := KV.Upsert s entry
        let replReq : ReplicateRequest := ⟨entry.key, entry.value, entry.ts, reqID⟩
        let attempts := broadcastReplication cfg.peers cfg.blockPeers deliver replReq
        if cfg.mode = .async then ⟨.ok cfg.mode reqID, s', [], attempts⟩
        else ⟨.ok cfg.mode reqID, s', attempts, []⟩

/-- The response `handleReplicate` writes. -/
inductive ReplicateReply
  | methodNotAllowed
  | leaderForbidden
  | invalidBody
  | replOk
deriving DecidableEq, Repr

/-- Function `handleReplicate` from internal/api/http.go lines 176-209: method
check, reject on a leader node, decode the body, `Upsert` the entry into
the local store, acknowledge with "ok". -/
def handleReplicate (role : Role) (s : KV) (methodPost : Bool)
    (body : Option ReplicateRequest) : ReplicateReply × KV :=
  if !methodPost then (.methodNotAllowed, s)
  else if role = .leader then (.leaderForbidden, s)
  else
    match body with
    | none => (.invalidBody, s)
    | some req => (.replOk, KV.Upsert s ⟨req.key, req.value, req.ts⟩)

/-- Function `handlePartition` from internal/api/http.go lines 247-269, effect on
`BlockPeers`: if the `block` query parameter is non-empty, set its entry
to true; then, if the `unblock` parameter is non-empty, delete its
entry. -/
def handlePartition (blockPeers : String → Bool)
    (blockQ unblockQ : String) : String → Bool :=
  let afterBlock :=
    if blockQ ≠ "" then fun u => if u = blockQ then true else blockPeers u
    else blockPeers
  if unblockQ ≠ "" then fun u => if u = unblockQ then false else afterBlock u
  else afterBlock

/-- Claim C3: in sync mode, the `PutResult` handed back by `handlePut` already
contains an observed delivery outcome (success, failure, or skip) for
every peer in the peer list — the handler does not return before the
whole broadcast has been observed — and whatever those outcomes are
(`deliver` is universally quantified, so every peer may fail), the write
is answered with status "ok". -/
theorem sync_put_observes_all_attempts (cfg : NodeConfig)
    (deliver : String → ReplicateRequest → Bool) (s : KV) (req : PutRequest)
    (now : Nat) (reqID : String)
    (hrole : cfg.role = .leader) (hmode : cfg.mode = .sync) (hkey : req.key ≠ "") :
    (handlePut cfg deliver s true (some req) now reqID).reply = .ok cfg.mode reqID ∧
    (handlePut cfg deliver s true (some req) now reqID).observed
      = broadcastReplication cfg.peers cfg.blockPeers deliver
          ⟨req.key, req.value, now, reqID⟩ ∧
    ∀ u ∈ cfg.peers,
      (u, attemptPeer cfg.blockPeers deliver ⟨req.key, req.value, now, reqID⟩ u)
        ∈ (handlePut cfg deliver s true (some req) now reqID).observed := by
  have hobs : (handlePut cfg deliver s true (some req) now reqID).observed
      = broadcastReplication cfg.peers cfg.blockPeers deliver
          ⟨req.key, req.value, now, reqID⟩ := by
    simp [handlePut, hrole, hmode, hkey]
  refine ⟨by simp [handlePut, hrole, hmode, hkey], hobs, fun u hu => ?_⟩
  rw [hobs]
  exact List.mem_map_of_mem _ hu

/-- Definition `cfgW` is a concrete sync-mode leader configuration with two peers
and an empty blocked set, used by witnesses. -/
def cfgW : NodeConfig :=
  ⟨"leader-1", .leader, .sync, ["http://follower1:8081", "http://follower2:8082"],
    fun _ => false⟩

/-- Witness for C3: with a delivery oracle that fails for every peer,
the sync put still replies "ok" and an attempt is observed per peer. -/
theorem sync_put_observes_all_attempts_witness :
    (handlePut cfgW (fun _ _ => false) KV.New true (some ⟨"city", "Raleigh"⟩) 7 "r1").reply
      = .ok cfgW.mode "r1" ∧
    ∀ u ∈ cfgW.peers,
      (u, attemptPeer cfgW.blockPeers (fun _ _ => false) ⟨"city", "Raleigh", 7, "r1"⟩ u)
        ∈ (handlePut cfgW (fun _ _ => false) KV.New true (some ⟨"city", "Raleigh"⟩) 7 "r1").observed := by
  have h := sync_put_observes_all_attempts cfgW (fun _ _ => false) KV.New
    ⟨"city", "Raleigh"⟩ 7 "r1" rfl rfl (by decide)
  exact ⟨h.1, h.2.2⟩

/-- Claim C4: `handlePut` on a non-leader node, or with an empty key, rejects
the request — the reply is never the "ok" response — and hands back the
store unchanged. -/
theorem put_rejects_without_mutation (cfg : NodeConfig)
    (deliver : String → ReplicateRequest → Bool) (s : KV) (m : Bool)
    (body : Option PutRequest) (now : Nat) (reqID : String) :
    (cfg.role ≠ .leader →
      (handlePut cfg deliver s m body now reqID).store = s ∧
      ∀ md i, (handlePut cfg deliver s m body now reqID).reply ≠ .ok md i) ∧
    (∀ req, body = some req → req.key = "" →
      (handlePut cfg deliver s m body now reqID).store = s ∧
      ∀ md i, (handlePut cfg deliver s m body now reqID).reply ≠ .ok md i) := by
  constructor
  · intro hrole
    cases m with
    | false => simp [handlePut]
    | true => simp [handlePut, hrole]
  · rintro req rfl hkey
    cases m with
    | false => simp [handlePut]
    | true =>
      by_cases hrole : cfg.role = .leader
      · simp [handlePut, hrole, hkey]
      · simp [handlePut, hrole]

/-- Witness for C4: a follower rejects a put, and a leader rejects an
empty-key put, both leaving the store unchanged. -/
theorem put_rejects_without_mutation_witness :
    ((handlePut ⟨"f1", .follower, .sync, [], fun _ => false⟩ (fun _ _ => true) KV.New
        true (some ⟨"city", "x"⟩) 1 "r").store = KV.New ∧
      ∀ md i, (handlePut ⟨"f1", .follower, .sync, [], fun _ => false⟩ (fun _ _ => true) KV.New
        true (some ⟨"city", "x"⟩) 1 "r").reply ≠ .ok md i) ∧
    ((handlePut cfgW (fun _ _ => true) KV.New true (some ⟨"", "x"⟩) 1 "r").store = KV.New ∧
      ∀ md i, (handlePut cfgW (fun _ _ => true) KV.New
        true (some ⟨"", "x"⟩) 1 "r").reply ≠ .ok md i) := by
  constructor
  · exact (put_rejects_without_mutation ⟨"f1", .follower, .sync, [], fun _ => false⟩
      (fun _ _ => true) KV.New true (some ⟨"city", "x"⟩) 1 "r").1 (by decide)
  · exact (put_rejects_without_mutation cfgW (fun _ _ => true) KV.New true
      (some ⟨"", "x"⟩) 1 "r").2 ⟨"", "x"⟩ rfl rfl

/-- Claim C5: `handleReplicate` on a non-leader node merges every decoded body
into the store via `Upsert` and acknowledges "ok"; a rejection happens
only when the body fails to decode or the node is a leader, and every
rejection leaves the store unchanged. -/
theorem replicate_merges_and_rejections (role : Role) (s : KV)
    (body : Option ReplicateRequest) :
    (∀ req, body = some req → role ≠ .leader →
      handleReplicate role s true body
        = (.replOk, KV.Upsert s ⟨req.key, req.value, req.ts⟩)) ∧
    ((handleReplicate role s true body).1 ≠ .replOk →
      body = none ∨ role = .leader) ∧
    ((handleReplicate role s true body).1 ≠ .replOk →
      (handleReplicate role s true body).2 = s) := by
  refine ⟨?_, ?_, ?_⟩
  · rintro req rfl hrole
    simp [handleReplicate, hrole]
  · intro hrej
    by_cases hrole : role = .leader
    · exact Or.inr hrole
    · cases body with
      | none => exact Or.inl rfl
      | some req => exact absurd (by simp [handleReplicate, hrole]) hrej
  · intro hrej
    by_cases hrole : role = .leader
    · simp [handleReplicate, hrole]
    · cases body with
      | none => simp [handleReplicate, hrole]
      | some req => exact absurd (by simp [handleReplicate, hrole]) hrej

/-- Witness for C5: a follower acknowledges and merges a concrete body;
a leader rejection leaves the store unchanged. -/
theorem replicate_merges_and_rejections_witness :
    handleReplicate .follower KV.New true (some ⟨"k", "v", 3, "r"⟩)
      = (.replOk, KV.Upsert KV.New ⟨"k", "v", 3⟩) ∧
    (handleReplicate .leader KV.New true (some ⟨"k", "v", 3, "r"⟩)).2 = KV.New := by
  constructor
  · exact (replicate_merges_and_rejections .follower KV.New
      (some ⟨"k", "v", 3, "r"⟩)).1 ⟨"k", "v", 3, "r"⟩ rfl (by decide)
  · exact (replicate_merges_and_rejections .leader KV.New
      (some ⟨"k", "v", 3, "r"⟩)).2.2 (by decide)

/-- Claim C6: during a broadcast, a peer that the partition filter marks
blocked receives no transport invocation at all, while an unblocked peer
receives exactly one invocation per occurrence in the peer list, and
every invocation carries the given record and request id. -/
theorem broadcast_respects_partition (peers : List String) (blocked : String → Bool)
    (req : ReplicateRequest) (u : String) :
    (blocked u = true → ∀ r, (u, r) ∉ deliverCalls peers blocked req) ∧
    (blocked u = false →
      (deliverCalls peers blocked req).count (u, req) = peers.count u) ∧
    (∀ c ∈ deliverCalls peers blocked req, c.2 = req) := by
  refine ⟨?_, ?_, ?_⟩
  · intro hb r hmem
    rcases List.mem_filterMap.mp hmem with ⟨url, _, heq⟩
    by_cases hbu : blocked url
    · simp [hbu] at heq
    · simp [hbu] at heq
      rw [← heq.1] at hb
      exact hbu hb
  · intro hb
    induction peers with
    | nil => rfl
    | cons p ps ih =>
      by_cases hbp : blocked p
      · have hpu : ¬ u = p := by
          intro h; rw [h, hbp] at hb; exact Bool.noConfusion hb
        simpa [deliverCalls, List.filterMap_cons, hbp, List.count_cons, hpu] using ih
      · simp only [deliverCalls, List.filterMap_cons, if_neg hbp] at ih ⊢
        simp only [List.count_cons, ih, Prod.mk.injEq]
        by_cases hup : u = p <;> simp [hup]
  · intro c hc
    rcases List.mem_filterMap.mp hc with ⟨url, _, heq⟩
    by_cases hbu : blocked url
    · simp [hbu] at heq
    · simp [hbu] at heq
      rw [← heq]

/-- Witness for C6: with peer list `[a, b, a]` and `b` blocked, `b` gets
no transport call and each occurrence of `a` gets exactly one. -/
theorem broadcast_respects_partition_witness :
    (∀ r, ("b", r) ∉ deliverCalls ["a", "b", "a"] (fun v => v == "b") ⟨"k", "v", 1, "r"⟩) ∧
    (deliverCalls ["a", "b", "a"] (fun v => v == "b") ⟨"k", "v", 1, "r"⟩).count
      ("a", ⟨"k", "v", 1, "r"⟩) = (["a", "b", "a"] : List String).count "a" := by
  constructor
  · exact (broadcast_respects_partition ["a", "b", "a"] (fun v => v == "b")
      ⟨"k", "v", 1, "r"⟩ "b").1 (by decide)
  · exact (broadcast_respects_partition ["a", "b", "a"] (fun v => v == "b")
      ⟨"k", "v", 1, "r"⟩ "a").2.1 (by decide)

/-- Claim C9: a partition-control request carrying the same non-empty peer in
both `block` and `unblock` applies the block first and the unblock
second, so the peer ends up unblocked whatever its previous state, and
every other peer's state is untouched. -/
theorem partition_block_then_unblock (bp : String → Bool) (p : String) (hp : p ≠ "") :
    handlePartition bp p p p = false ∧
    ∀ q, q ≠ p → handlePartition bp p p q = bp q := by
  constructor
  · simp [handlePartition, hp]
  · intro q hq
    simp [handlePartition, hp, hq]

/-- Witness for C9: a previously-blocked peer passed as both `block` and
`unblock` ends up unblocked; another peer keeps its state. -/
theorem partition_block_then_unblock_witness :
    handlePartition (fun _ => true) "http://follower1:8081" "http://follower1:8081"
      "http://follower1:8081" = false ∧
    handlePartition (fun _ => true) "http://follower1:8081" "http://follower1:8081"
      "http://follower2:8082" = (fun _ => true) "http://follower2:8082" := by
  have h := partition_block_then_unblock (fun _ => true) "http://follower1:8081" (by decide)
  exact ⟨h.1, h.2 "http://follower2:8082" (by decide)⟩

/-- Claim C10: on a non-leader node, `handleReplicate` applies every decoded
body — no key or timestamp validation — so a body with an empty key and
timestamp 0 is merged and acknowledged, and the store then holds an
entry whose key is the empty string. -/
theorem replicate_accepts_empty_key (role : Role) (s : KV) (req : ReplicateRequest)
    (hrole : role ≠ .leader) :
    handleReplicate role s true (some req)
      = (.replOk, KV.Upsert s ⟨req.key, req.value, req.ts⟩) ∧
    (req.key = "" → s "" = none →
      (handleReplicate role s true (some req)).2 "" = some ⟨"", req.value, req.ts⟩) := by
  have h1 : handleReplicate role s true (some req)
      = (.replOk, KV.Upsert s ⟨req.key, req.value, req.ts⟩) := by
    simp [handleReplicate, hrole]
  refine ⟨h1, fun hk h0 => ?_⟩
  rw [h1]
  simp only [KV.Upsert, hk] at h0 ⊢
  simp [h0, hk]

/-- Witness for C10: a follower merges the body with key `""` and
timestamp 0, and its store then maps `""` to that record. -/
theorem replicate_accepts_empty_key_witness :
    handleReplicate .follower KV.New true (some ⟨"", "v", 0, "r"⟩)
      = (.replOk, KV.Upsert KV.New ⟨"", "v", 0⟩) ∧
    (handleReplicate .follower KV.New true (some ⟨"", "v", 0, "r"⟩)).2 ""
      = some ⟨"", "v", 0⟩ := by
  have h := replicate_accepts_empty_key .follower KV.New ⟨"", "v", 0, "r"⟩ (by decide)
  exact ⟨h.1, h.2 rfl rfl⟩

/-!
Embedding of `NormalizePeers` (internal/cluster/node.go lines 48-71).
Peer addresses are modelled as `List Char`.  The Go standard-library
pieces the function uses — `strings.TrimSpace`, `strings.Split` and the
fragment of `net/url.Parse` it inspects (`err`, `u.Scheme`, `u.Host`,
`u.String()`) — are modelled below, following the Go sources: `Parse`
rejects any ASCII control byte; the scheme scanner mirrors `getScheme`;
a host component exists only when the part after "scheme:" begins with
"//", runs to the first `/`, `?` or `#`, and must carry a valid optional
port (`validOptionalPort`: after the last colon only digits), otherwise
`Parse` errors; and `u.String()` reassembles `scheme ":" rest`.
Userinfo (`@`), percent-escapes and IPv6 brackets are not modelled; the
kept-verbatim conjunct of the C8 theorem therefore restricts hosts to
characters on which those paths are never taken.  Parse errors that Go
raises only when no scheme or no host was found (e.g. "first path
segment in URL cannot contain colon" for a scheme-less `127.0.0.1:8080`)
are not distinguished from a scheme-less or host-less success, because
`NormalizePeers` takes the same `"http://"`-prefixing branch for both.
-/

end LeaderRepl
